import Mathlib

/-!
Verification of the ocrcvrt image-conversion utility (`src/main.py`).

The development shallowly embeds the Python program:
* `pathlib.Path` values are modeled by `PyPath`: an absoluteness flag plus the
  list of path components, each component being a list of characters.
* the filesystem is modeled explicitly: a list of existing paths, an
  association from paths to decodable image content, and an association
  recording the images written by the program.
* Python functions that can raise are modeled with `Except`.

All definitions are computable so that concrete scenarios evaluate by `decide`.
-/

/-- Decimal digit characters of a natural number, fuel-indexed so the
recursion is structural.  `decDigitsF (n+1) n` is the list of characters of
the decimal representation of `n`; this models Python string interpolation
of an `int` (as in the f-string building collision suffixes). -/
def decDigitsF : Nat → Nat → List Char
  | 0, _ => []
  | fuel+1, n =>
    if n < 10 then [Nat.digitChar n]
    else decDigitsF fuel (n / 10) ++ [Nat.digitChar (n % 10)]

/-- Decimal representation of a natural number, as characters. -/
def natDigits (n : Nat) : List Char := decDigitsF (n + 1) n

/-- Left inverse of `natDigits`: reads decimal digit characters back. -/
def decValue (l : List Char) : Nat :=
  l.foldl (fun a c => a * 10 + (c.toNat - 48)) 0

/-- Index of the last `'.'` in a character list, if any.  Models Python
`str.rfind('.')` restricted to what `pathlib` needs. -/
def rfindDot : List Char → Option Nat
  | [] => none
  | c :: cs =>
    match rfindDot cs with
    | some i => some (i + 1)
    | none => if c = '.' then some 0 else none

/-- Split a file name into `(stem, suffix)` exactly as Python `pathlib`
computes `PurePath.stem` / `PurePath.suffix`: the suffix starts at the last
dot provided that dot is neither the first nor the last character; otherwise
the suffix is empty and the stem is the whole name. -/
def splitExt (name : List Char) : List Char × List Char :=
  match rfindDot name with
  | some i => if 0 < i ∧ i + 1 < name.length then (name.take i, name.drop i) else (name, [])
  | none => (name, [])

/-- Model of `pathlib.Path`: an absoluteness flag plus the path components
(the anchor of an absolute path is carried by the flag, not by a component). -/
structure PyPath where
  absolute : Bool
  parts : List (List Char)
deriving DecidableEq

/-- `Path.name`: the final component (empty for a path with no components). -/
def pathName (p : PyPath) : List Char := p.parts.getLast?.getD []

/-- `Path.stem` of the final component. -/
def nameStem (p : PyPath) : List Char := (splitExt (pathName p)).1

/-- `Path.suffix` of the final component. -/
def nameSuffix (p : PyPath) : List Char := (splitExt (pathName p)).2

/-- `Path.with_name`: replace the final component. -/
def with_name (p : PyPath) (nm : List Char) : PyPath :=
  ⟨p.absolute, p.parts.dropLast ++ [nm]⟩

/-- `Path.with_suffix`: replace the suffix of the final component (the new
name is the stem followed by the new suffix). -/
def with_suffix (p : PyPath) (ext : List Char) : PyPath :=
  with_name p (nameStem p ++ ext)

/-- Does `lead` appear as the leading run of components of `l`?  (Used to
model the success condition of `Path.relative_to`.) -/
def partsLead : List (List Char) → List (List Char) → Bool
  | [], _ => true
  | _ :: _, [] => false
  | a :: as, b :: bs => a = b && partsLead as bs

/-- `Path.relative_to`: succeeds when the anchors agree and the components of
`rd` lead those of `src`, returning the remaining components as a relative
path; `none` models the `ValueError` raised otherwise. -/
def relative_to (src rd : PyPath) : Option PyPath :=
  if src.absolute = rd.absolute ∧ partsLead rd.parts src.parts = true then
    some ⟨false, src.parts.drop rd.parts.length⟩
  else none

/-- The `/` operator on paths: joining with an absolute path discards the
left operand. -/
def joinPath (a b : PyPath) : PyPath :=
  if b.absolute then b else ⟨a.absolute, a.parts ++ b.parts⟩

/-- `Path(src.name)`: a relative path of a single component. -/
def nameOnly (src : PyPath) : PyPath := ⟨false, [pathName src]⟩

/-- Existence check against the modeled set of on-disk paths. -/
def pexists (files : List PyPath) (p : PyPath) : Bool := decide (p ∈ files)

/-- The extension-set of already OCR-ready containers (`OCR_FRIENDLY_EXTENSIONS`
in `src/main.py`). -/
def OCR_FRIENDLY_EXTENSIONS : List (List Char) :=
  [".png".data, ".tif".data, ".tiff".data, ".pbm".data, ".pgm".data, ".ppm".data]

/-- `is_ocr_friendly` from `src/main.py`: membership of the lower-cased
suffix in the fixed extension set. -/
def is_ocr_friendly (file_path : PyPath) : Bool :=
  decide ((nameSuffix file_path).map Char.toLower ∈ OCR_FRIENDLY_EXTENSIONS)

/-- The first line of `derive_output_path`: prepend a dot to the target
extension unless it already starts with one. -/
def extNorm (e : List Char) : List Char :=
  match e with
  | '.' :: _ => e
  | _ => '.' :: e

/-- The relative path used for mirroring in `derive_output_path`: the path of
`src` relative to `root_dir` when a root is given and `src` is absolute,
falling back to just the file name when the relative computation raises or
when there is no root (or `src` is not absolute). -/
def mirrorRel (src : PyPath) (root_dir : Option PyPath) : PyPath :=
  match root_dir with
  | some rd => if src.absolute then (relative_to src rd).getD (nameOnly src) else nameOnly src
  | none => nameOnly src

/-- The mirrored candidate: `Path(out_dir) / rel.with_suffix(target_ext)`. -/
def mirrorCandidate (src : PyPath) (root_dir : Option PyPath) (od : PyPath)
    (ext : List Char) : PyPath :=
  joinPath od (with_suffix (mirrorRel src root_dir) ext)

/-- The in-place candidate: `src.with_suffix(target_ext)`. -/
def inPlaceCandidate (src : PyPath) (ext : List Char) : PyPath :=
  with_suffix src ext

/-- Candidate destination before collision handling, branching on whether an
output directory was supplied (`if out_dir:` in the source; `Path` objects
are always truthy in Python, so the test is exactly presence). -/
def deriveCandidate (src : PyPath) (root_dir out_dir : Option PyPath)
    (ext : List Char) : PyPath :=
  match out_dir with
  | some od => mirrorCandidate src root_dir od ext
  | none => inPlaceCandidate src ext

/-- The `candidate == src` guard of `derive_output_path`: when the candidate
equals the source, the token `_ocr` is inserted into the stem. -/
def adjCandidate (src : PyPath) (root_dir out_dir : Option PyPath)
    (ext : List Char) : PyPath :=
  let c := deriveCandidate src root_dir out_dir ext
  if c = src then with_name c (nameStem c ++ "_ocr".data ++ nameSuffix c) else c

/-- The path tried at loop counter `k` by the collision-avoidance loop:
trial `0` is the candidate itself, trial `k ≥ 1` is the candidate with
`_k` appended to the stem (`f"{candidate.stem}_{idx}{candidate.suffix}"`). -/
def trialPath (c : PyPath) : Nat → PyPath
  | 0 => c
  | k+1 => with_name c (nameStem c ++ ('_' :: natDigits (k + 1)) ++ nameSuffix c)

/-- The `while final_path.exists()` loop of `derive_output_path`, written
with explicit fuel (the caller supplies fuel exceeding the number of
existing files, which suffices because the trial paths are pairwise
distinct). -/
def collisionLoop (files : List PyPath) (c : PyPath) : Nat → Nat → PyPath → PyPath
  | 0, _, final => final
  | fuel+1, idx, final =>
    if pexists files final then collisionLoop files c fuel (idx + 1) (trialPath c idx)
    else final

/-- `derive_output_path` from `src/main.py`, with the filesystem passed in
explicitly as the list of existing paths. -/
def derive_output_path (files : List PyPath) (src : PyPath)
    (root_dir out_dir : Option PyPath) (target_ext : List Char) : PyPath :=
  let ext := extNorm target_ext
  let c := adjCandidate src root_dir out_dir ext
  collisionLoop files c (files.length + 1) 1 c

/-- The decoded-image state relevant to the conversion: color mode (a PIL
mode string such as "RGB"), whether the embedded orientation metadata is
malformed, and whether orientation has been applied to the pixels. -/
structure PILImage where
  mode : String
  exifMalformed : Bool
  oriented : Bool
deriving DecidableEq

/-- What `im.save` records at the destination: the saved mode, the embedded
`(dpi, dpi)` resolution, the container format, the PNG `optimize` flag, the
TIFF compression parameter, and whether the pixels were orientation-corrected. -/
structure SavedImage where
  mode : String
  dpi : Nat × Nat
  format : String
  optimize : Bool
  compression : Option String
  oriented : Bool
deriving DecidableEq

/-- Modeled filesystem: the set of existing paths, the decodable content of
source files (`none` models an unreadable/corrupt image), and the images the
program has written. -/
structure World where
  files : List PyPath
  content : List (PyPath × Option PILImage)
  saved : List (PyPath × SavedImage)
deriving DecidableEq

/-- Association-list lookup keyed by paths. -/
def lookupPath {α : Type} : List (PyPath × α) → PyPath → Option α
  | [], _ => none
  | (k, v) :: rest, p => if k = p then some v else lookupPath rest p

/-- Errors a conversion can raise: `PIL.Image.open` fails on a missing or
corrupt source. -/
inductive ConvError where
  | unreadable (p : PyPath)
deriving DecidableEq

/-- Filesystem operations performed by a conversion, for stating frame
conditions. -/
inductive FsOp where
  | read (p : PyPath)
  | mkdirParent (p : PyPath)
  | write (p : PyPath)
deriving DecidableEq

/-- `Image.open` + `im.load()`: decode the source fully, raising on missing
or corrupt content. -/
def openImage (w : World) (p : PyPath) : Except ConvError PILImage :=
  match lookupPath w.content p with
  | some (some im) => .ok im
  | _ => .error (ConvError.unreadable p)

/-- Models `PIL.ImageOps.exif_transpose` (an external library call): applies
the embedded orientation metadata to the pixels, raising when the metadata is
malformed. -/
def exif_transpose (im : PILImage) : Except Unit PILImage :=
  if im.exifMalformed then .error () else .ok { im with oriented := true }

/-- `convert_to_ocr_friendly` from `src/main.py`.  Returns the destination
path, the changed flag, the updated filesystem, and the filesystem operations
performed; raises (as `Except.error`) exactly where the Python propagates an
exception. -/
def convert_to_ocr_friendly (w : World) (src : PyPath) (output_format : String)
    (dpi : Nat) (root_dir output_dir : Option PyPath) :
    Except ConvError (PyPath × Bool × World × List FsOp) :=
  if is_ocr_friendly src then .ok (src, false, w, [])
  else
    let target_ext := if output_format.toUpper = "PNG" then ".png".data else ".tiff".data
    let output_path := derive_output_path w.files src root_dir output_dir target_ext
    match openImage w src with
    | .error e => .error e
    | .ok im0 =>
      let im1 := if im0.mode = "P" ∨ im0.mode = "CMYK" then { im0 with mode := "RGB" } else im0
      let im2 := match exif_transpose im1 with
        | .ok t => t
        | .error _ => im1
      let sv : SavedImage :=
        { mode := im2.mode
          dpi := (dpi, dpi)
          format := output_format.toUpper
          optimize := output_format.toUpper = "PNG"
          compression := if output_format.toUpper = "PNG" then none else some "tiff_deflate"
          oriented := im2.oriented }
      let w' : World :=
        { w with files := output_path :: w.files, saved := (output_path, sv) :: w.saved }
      .ok (output_path, true, w',
           [FsOp.read src, FsOp.mkdirParent output_path, FsOp.write output_path])

/-- The per-candidate loop of `main` (lines 259-284 of `src/main.py`):
classify, honor dry-run, convert, and update the three counters.  There is no
try/except around the call to `convert_to_ocr_friendly`, so an error raised
there propagates and aborts the whole batch. -/
def processFiles (output_format : String) (dpi : Nat)
    (root_dir output_dir : Option PyPath) (dry_run : Bool) :
    List PyPath → World → Nat → Nat → Nat →
    Except ConvError (World × Nat × Nat × Nat)
  | [], w, total, conv, skip => .ok (w, total, conv, skip)
  | f :: rest, w, total, conv, skip =>
    let total := total + 1
    if is_ocr_friendly f then
      processFiles output_format dpi root_dir output_dir dry_run rest w total conv (skip + 1)
    else if dry_run then
      processFiles output_format dpi root_dir output_dir dry_run rest w total conv skip
    else
      match convert_to_ocr_friendly w f output_format dpi root_dir output_dir with
      | .error e => .error e
      | .ok (_, changed, w', _) =>
        if changed then
          processFiles output_format dpi root_dir output_dir dry_run rest w' total (conv + 1) skip
        else
          processFiles output_format dpi root_dir output_dir dry_run rest w' total conv (skip + 1)

/-- Is an `Except` a success? -/
def isOkE {ε α : Type} : Except ε α → Bool
  | .ok _ => true
  | .error _ => false

/-- `str.lower()` on the characters of a cell (ASCII case mapping, which is
what the extensions and header tokens involved use). -/
def lowerStr (s : List Char) : List Char := s.map Char.toLower

/-- `str.strip()`: drop whitespace at both ends. -/
def stripStr (s : List Char) : List Char :=
  ((s.dropWhile Char.isWhitespace).reverse.dropWhile Char.isWhitespace).reverse

/-- First index of a cell equal to `t` (`list.index`, reached only under a
membership guard in the source). -/
def idxOfStr : List (List Char) → List Char → Nat
  | [], _ => 0
  | s :: rest, t => if s = t then 0 else idxOfStr rest t + 1

/-- Loop state of `load_directories_from_csv`: whether a header row has been
seen, the selected path column, the accepted directories, and the warnings
printed so far (modeled as the list of raw paths warned about). -/
structure CsvState where
  header_seen : Bool
  path_column_index : Option Nat
  directories : List PyPath
  warnings : List (List Char)
deriving DecidableEq

/-- The row loop of `load_directories_from_csv` (lines 34-62 of
`src/main.py`).  `resolve` models `Path(raw).expanduser().resolve()` and
`isValidDir` models `p.exists() and p.is_dir()`. -/
def loadCsvRows (resolve : List Char → PyPath) (isValidDir : PyPath → Bool) :
    List (List (List Char)) → CsvState → CsvState
  | [], st => st
  | row :: rest, st =>
    if row = [] then loadCsvRows resolve isValidDir rest st
    else
      let first_cell := stripStr (row.headD [])
      if first_cell.head? = some '#' then loadCsvRows resolve isValidDir rest st
      else
        let lowered := row.map (fun c => lowerStr (stripStr c))
        let st1 : CsvState :=
          if st.header_seen = false then
            if "path".data ∈ lowered then
              { st with header_seen := true,
                        path_column_index := some (idxOfStr lowered "path".data) }
            else { st with header_seen := true, path_column_index := some 0 }
          else st
        if st.header_seen = false ∧ "path".data ∈ lowered then
          loadCsvRows resolve isValidDir rest st1
        else
          let idx := st1.path_column_index.getD 0
          if row.length ≤ idx then loadCsvRows resolve isValidDir rest st1
          else
            let raw_path := stripStr (row.getD idx [])
            if raw_path = [] then loadCsvRows resolve isValidDir rest st1
            else
              let p := resolve raw_path
              if isValidDir p = false then
                loadCsvRows resolve isValidDir rest
                  { st1 with warnings := st1.warnings ++ [raw_path] }
              else
                loadCsvRows resolve isValidDir rest
                  { st1 with directories := st1.directories ++ [p] }

/-- `load_directories_from_csv` from `src/main.py`: run the row loop on the
parsed rows; raising `SystemExit` when no valid directory was found is
modeled as `Except.error`.  On success the accepted directories are returned
together with the warnings that were printed. -/
def load_directories_from_csv (resolve : List Char → PyPath)
    (isValidDir : PyPath → Bool) (rows : List (List (List Char))) :
    Except (List Char) (List PyPath × List (List Char)) :=
  let st := loadCsvRows resolve isValidDir rows ⟨false, none, [], []⟩
  if st.directories = [] then .error "No valid directories found in CSV".data
  else .ok (st.directories, st.warnings)

/-- The string `str(Path.home() / "ocr_output")`: the argparse default for
`--output-dir` in `main`. -/
def defaultOutputDirRaw (homeStr : List Char) : List Char :=
  homeStr ++ ('/' :: "ocr_output".data)

/-- The raw `--output-dir` value after argument parsing: the supplied flag
when present, the default `~/ocr_output` otherwise. -/
def argsOutputDirRaw (flag : Option (List Char)) (homeStr : List Char) : List Char :=
  match flag with
  | some s => s
  | none => defaultOutputDirRaw homeStr

/-- The `output_dir` computed by `main` (line 221 of `src/main.py`):
`Path(args.output_dir).expanduser().resolve()`, with `resolve` modeling that
normalization. -/
def mainOutputDir (resolve : List Char → PyPath) (homeStr : List Char)
    (flag : Option (List Char)) : PyPath :=
  resolve (argsOutputDirRaw flag homeStr)

/-- The `output_dir=` argument that `main` passes to
`convert_to_ocr_friendly` (line 277): always `some` of the parsed output
directory. -/
def mainOutputDirArg (resolve : List Char → PyPath) (homeStr : List Char)
    (flag : Option (List Char)) : Option PyPath :=
  some (mainOutputDir resolve homeStr flag)

/-- The per-root processing of `main`, with the output directory supplied
exactly as `main` computes it from the command line. -/
def mainRunRoot (resolve : List Char → PyPath) (homeStr : List Char)
    (flag : Option (List Char)) (output_format : String) (dpi : Nat)
    (root_dir : PyPath) (dry_run : Bool) (candidates : List PyPath) (w : World) :
    Except ConvError (World × Nat × Nat × Nat) :=
  processFiles output_format dpi (some root_dir) (mainOutputDirArg resolve homeStr flag)
    dry_run candidates w 0 0 0

/-! ### Decimal digits -/

theorem digitChar_toNat_sub (n : Nat) (h : n < 10) : (Nat.digitChar n).toNat - 48 = n := by
  have : ∀ m, m < 10 → (Nat.digitChar m).toNat - 48 = m := by decide
  exact this n h

theorem decValue_append_singleton (l : List Char) (c : Char) :
    decValue (l ++ [c]) = decValue l * 10 + (c.toNat - 48) := by
  unfold decValue
  rw [List.foldl_append]
  rfl

theorem decValue_decDigitsF (fuel n : Nat) (h : n < fuel) :
    decValue (decDigitsF fuel n) = n := by
  induction fuel generalizing n with
  | zero => omega
  | succ fuel ih =>
    unfold decDigitsF
    by_cases h10 : n < 10
    · simp only [if_pos h10]
      unfold decValue
      simp [digitChar_toNat_sub n h10]
    · simp only [if_neg h10]
      rw [decValue_append_singleton]
      have hd : n / 10 < fuel := by
        have h1 : n / 10 < n := Nat.div_lt_self (by omega) (by omega)
        omega
      rw [ih (n / 10) hd, digitChar_toNat_sub (n % 10) (Nat.mod_lt _ (by omega))]
      omega

theorem decValue_natDigits (n : Nat) : decValue (natDigits n) = n :=
  decValue_decDigitsF (n + 1) n (Nat.lt_succ_self n)

theorem natDigits_inj {m n : Nat} (h : natDigits m = natDigits n) : m = n := by
  have hm := decValue_natDigits m
  have hn := decValue_natDigits n
  rw [h] at hm
  omega

/-! ### Name splitting -/

theorem rfindDot_eq_none {l : List Char} : rfindDot l = none ↔ '.' ∉ l := by
  induction l with
  | nil => simp [rfindDot]
  | cons c cs ih =>
    unfold rfindDot
    cases h : rfindDot cs with
    | some i =>
      have hcs : '.' ∈ cs := by
        by_contra hn
        rw [← ih] at hn
        rw [h] at hn
        exact Option.noConfusion hn
      constructor
      · intro hfalse
        exact Option.noConfusion hfalse
      · intro hmem
        exact absurd (List.mem_cons_of_mem c hcs) hmem
    | none =>
      have hcs : '.' ∉ cs := ih.mp h
      by_cases hc : c = '.'
      · subst hc
        simp
      · rw [if_neg hc]
        constructor
        · intro _ hmem
          rcases List.mem_cons.mp hmem with h1 | h2
          · exact hc h1.symm
          · exact hcs h2
        · intro _
          rfl

theorem rfindDot_append_of_some {r : List Char} {i : Nat} (l : List Char)
    (h : rfindDot r = some i) : rfindDot (l ++ r) = some (l.length + i) := by
  induction l with
  | nil => simpa using h
  | cons c cs ih =>
    show rfindDot (c :: (cs ++ r)) = _
    unfold rfindDot
    rw [ih]
    simp only [List.length_cons]
    congr 1
    omega

theorem rfindDot_dotless_ext {r : List Char} (hr : '.' ∉ r) :
    rfindDot ('.' :: r) = some 0 := by
  unfold rfindDot
  rw [rfindDot_eq_none.mpr hr]
  simp

theorem splitExt_eq_of_rfind_some {name : List Char} {i : Nat}
    (h : rfindDot name = some i) :
    splitExt name =
      if 0 < i ∧ i + 1 < name.length then (name.take i, name.drop i) else (name, []) := by
  unfold splitExt
  rw [h]

theorem splitExt_eq_of_rfind_none {name : List Char} (h : rfindDot name = none) :
    splitExt name = (name, []) := by
  unfold splitExt
  rw [h]

theorem rfindDot_stem_ext {r : List Char} (st : List Char) (hr : '.' ∉ r) :
    rfindDot (st ++ '.' :: r) = some st.length := by
  have := rfindDot_append_of_some st (rfindDot_dotless_ext hr)
  simpa using this

theorem rfindDot_drop {l : List Char} {i : Nat} (h : rfindDot l = some i) :
    ∃ t, l.drop i = '.' :: t := by
  induction l generalizing i with
  | nil => exact Option.noConfusion h
  | cons c cs ih =>
    unfold rfindDot at h
    cases hcs : rfindDot cs with
    | some j =>
      rw [hcs] at h
      have hij : i = j + 1 := by
        injection h with h1
        omega
      subst hij
      simpa using ih hcs
    | none =>
      rw [hcs] at h
      by_cases hc : c = '.'
      · rw [if_pos hc] at h
        have hi : i = 0 := by
          injection h with h1
          omega
        subst hi
        subst hc
        exact ⟨cs, rfl⟩
      · rw [if_neg hc] at h
        exact Option.noConfusion h

theorem splitExt_concat (name : List Char) :
    (splitExt name).1 ++ (splitExt name).2 = name := by
  cases h : rfindDot name with
  | some i =>
    rw [splitExt_eq_of_rfind_some h]
    by_cases hc : 0 < i ∧ i + 1 < name.length
    · rw [if_pos hc]
      exact List.take_append_drop i name
    · rw [if_neg hc]
      simp
  | none =>
    rw [splitExt_eq_of_rfind_none h]
    simp

theorem splitExt_stem_ext {st r : List Char} (hst : st ≠ []) (hr : r ≠ [])
    (hdot : '.' ∉ r) : splitExt (st ++ '.' :: r) = (st, '.' :: r) := by
  rw [splitExt_eq_of_rfind_some (rfindDot_stem_ext st hdot)]
  have hcond : 0 < st.length ∧ st.length + 1 < (st ++ '.' :: r).length := by
    constructor
    · exact List.length_pos.mpr hst
    · simp only [List.length_append, List.length_cons]
      have : 0 < r.length := List.length_pos.mpr hr
      omega
  rw [if_pos hcond]
  rw [List.take_left, List.drop_left]

theorem splitExt_ext_alone {r : List Char} (hdot : '.' ∉ r) :
    splitExt ('.' :: r) = ('.' :: r, []) := by
  rw [splitExt_eq_of_rfind_some (rfindDot_dotless_ext hdot)]
  simp

theorem splitExt_stem_nil {name : List Char} (h : (splitExt name).1 = []) :
    name = [] ∧ (splitExt name).2 = [] := by
  cases hr : rfindDot name with
  | some i =>
    rw [splitExt_eq_of_rfind_some hr] at h ⊢
    by_cases hc : 0 < i ∧ i + 1 < name.length
    · rw [if_pos hc] at h ⊢
      exfalso
      have hlen : name.length ≤ i ∨ i = 0 := by
        rcases List.take_eq_nil_iff.mp h with h1 | h2
        · right
          exact h1
        · left
          simp [h2]
      omega
    · rw [if_neg hc] at h ⊢
      exact ⟨h, rfl⟩
  | none =>
    rw [splitExt_eq_of_rfind_none hr] at h ⊢
    exact ⟨h, rfl⟩

theorem splitExt_suffix_shape (name : List Char) :
    (splitExt name).2 = [] ∨ ∃ t, (splitExt name).2 = '.' :: t := by
  cases hr : rfindDot name with
  | some i =>
    rw [splitExt_eq_of_rfind_some hr]
    by_cases hc : 0 < i ∧ i + 1 < name.length
    · rw [if_pos hc]
      right
      exact rfindDot_drop hr
    · rw [if_neg hc]
      left
      rfl
  | none =>
    rw [splitExt_eq_of_rfind_none hr]
    left
    rfl

/-! ### Path operations -/

theorem pathName_with_name (p : PyPath) (nm : List Char) :
    pathName (with_name p nm) = nm := by
  unfold pathName with_name
  simp

theorem dropLast_with_name (p : PyPath) (nm : List Char) :
    (with_name p nm).parts.dropLast = p.parts.dropLast := by
  unfold with_name
  simp

theorem absolute_with_name (p : PyPath) (nm : List Char) :
    (with_name p nm).absolute = p.absolute := rfl

theorem stem_append_suffix (p : PyPath) :
    nameStem p ++ nameSuffix p = pathName p :=
  splitExt_concat (pathName p)

theorem pathName_parts_concat {p : PyPath} {l : List (List Char)} {nm : List Char}
    (h : p.parts = l ++ [nm]) : pathName p = nm := by
  unfold pathName
  rw [h]
  simp

/-! ### Trial paths and the collision loop -/

theorem trialPath_inj (c : PyPath) {j k : Nat} (h : trialPath c j = trialPath c k) :
    j = k := by
  match j, k with
  | 0, 0 => rfl
  | 0, k+1 =>
    exfalso
    unfold trialPath at h
    have hparts : c.parts = c.parts.dropLast ++ [nameStem c ++ ('_' :: natDigits (k + 1)) ++ nameSuffix c] := by
      have := congrArg PyPath.parts h
      simpa [with_name] using this
    have hname : pathName c = nameStem c ++ ('_' :: natDigits (k + 1)) ++ nameSuffix c :=
      pathName_parts_concat hparts
    rw [← stem_append_suffix c] at hname
    rw [List.append_assoc] at hname
    have hcancel := List.append_cancel_left hname
    have := congrArg List.length hcancel
    simp at this
    omega
  | j+1, 0 =>
    exfalso
    unfold trialPath at h
    have hparts : c.parts = c.parts.dropLast ++ [nameStem c ++ ('_' :: natDigits (j + 1)) ++ nameSuffix c] := by
      have := congrArg PyPath.parts h.symm
      simpa [with_name] using this
    have hname : pathName c = nameStem c ++ ('_' :: natDigits (j + 1)) ++ nameSuffix c :=
      pathName_parts_concat hparts
    rw [← stem_append_suffix c] at hname
    rw [List.append_assoc] at hname
    have hcancel := List.append_cancel_left hname
    have := congrArg List.length hcancel
    simp at this
    omega
  | j+1, k+1 =>
    unfold trialPath at h
    have hparts := congrArg PyPath.parts h
    simp only [with_name] at hparts
    have hnm := List.append_cancel_left hparts
    have hname : nameStem c ++ ('_' :: natDigits (j + 1)) ++ nameSuffix c
        = nameStem c ++ ('_' :: natDigits (k + 1)) ++ nameSuffix c := by
      injection hnm with h1 _
    rw [List.append_assoc, List.append_assoc] at hname
    have h2 := List.append_cancel_left hname
    have h3 := List.append_cancel_right h2
    have h4 : natDigits (j + 1) = natDigits (k + 1) := by
      injection h3
    have := natDigits_inj h4
    omega

theorem exists_free_trial (files : List PyPath) (c : PyPath) :
    ∃ j, j < files.length + 1 ∧ pexists files (trialPath c j) = false := by
  by_contra hall
  push_neg at hall
  have hmem : ∀ j, j < files.length + 1 → trialPath c j ∈ files := by
    intro j hj
    have hne := hall j hj
    have : pexists files (trialPath c j) = true := by
      cases hb : pexists files (trialPath c j) with
      | false => exact absurd hb hne
      | true => rfl
    simpa [pexists] using this
  have hinj : Function.Injective (trialPath c) := fun a b hab => trialPath_inj c hab
  have hnodup : ((List.range (files.length + 1)).map (trialPath c)).Nodup :=
    (List.nodup_range _).map hinj
  have hsubset : ((List.range (files.length + 1)).map (trialPath c)).toFinset ⊆ files.toFinset := by
    intro x hx
    rw [List.mem_toFinset] at hx
    rw [List.mem_toFinset]
    rcases List.mem_map.mp hx with ⟨j, hj, rfl⟩
    exact hmem j (List.mem_range.mp hj)
  have h1 := List.toFinset_card_of_nodup hnodup
  have h2 := Finset.card_le_card hsubset
  have h3 : files.toFinset.card ≤ files.length := List.toFinset_card_le files
  rw [h1] at h2
  simp only [List.length_map, List.length_range] at h2
  omega

theorem collisionLoop_min (files : List PyPath) (c : PyPath) :
    ∀ (fuel i K : Nat), i ≤ K → K < i + fuel →
    pexists files (trialPath c K) = false →
    (∀ m, i ≤ m → m < K → pexists files (trialPath c m) = true) →
    collisionLoop files c fuel (i + 1) (trialPath c i) = trialPath c K := by
  intro fuel
  induction fuel with
  | zero =>
    intro i K h1 h2 _ _
    omega
  | succ fuel ih =>
    intro i K h1 h2 hfree hmin
    unfold collisionLoop
    cases hp : pexists files (trialPath c i) with
    | false =>
      have hKi : K = i := by
        by_contra hne
        have hlt : i < K := by omega
        have := hmin i (Nat.le_refl i) hlt
        rw [hp] at this
        exact Bool.noConfusion this
      subst hKi
      rfl
    | true =>
      have hKi : i < K := by
        rcases Nat.lt_or_ge i K with h | h
        · exact h
        · exfalso
          have : K = i := by omega
          subst this
          rw [hp] at hfree
          exact Bool.noConfusion hfree
      have := ih (i + 1) K (by omega) (by omega) hfree
        (fun m hm1 hm2 => hmin m (by omega) hm2)
      simpa using this

theorem derive_eq_trial (files : List PyPath) (src : PyPath)
    (root_dir out_dir : Option PyPath) (target_ext : List Char) :
    ∃ h : ∃ k, pexists files
        (trialPath (adjCandidate src root_dir out_dir (extNorm target_ext)) k) = false,
      derive_output_path files src root_dir out_dir target_ext
        = trialPath (adjCandidate src root_dir out_dir (extNorm target_ext)) (Nat.find h) := by
  set c := adjCandidate src root_dir out_dir (extNorm target_ext) with hc
  obtain ⟨j, hj, hfree⟩ := exists_free_trial files c
  have h : ∃ k, pexists files (trialPath c k) = false := ⟨j, hfree⟩
  refine ⟨h, ?_⟩
  have hK := Nat.find_spec h
  have hKle : Nat.find h ≤ j := Nat.find_le hfree
  have hmin : ∀ m, 0 ≤ m → m < Nat.find h → pexists files (trialPath c m) = true := by
    intro m _ hm
    have hnot := Nat.find_min h hm
    cases hb : pexists files (trialPath c m) with
    | false => exact absurd hb hnot
    | true => rfl
  have hloop := collisionLoop_min files c (files.length + 1) 0 (Nat.find h)
    (Nat.zero_le _) (by omega) hK hmin
  exact hloop

theorem derive_not_exists (files : List PyPath) (src : PyPath)
    (root_dir out_dir : Option PyPath) (target_ext : List Char) :
    pexists files (derive_output_path files src root_dir out_dir target_ext) = false := by
  obtain ⟨h, heq⟩ := derive_eq_trial files src root_dir out_dir target_ext
  rw [heq]
  exact Nat.find_spec h

/-- Derivation with no pre-existing collision returns the (adjusted)
candidate itself. -/
theorem derive_no_collision (files : List PyPath) (src : PyPath)
    (root_dir out_dir : Option PyPath) (target_ext : List Char)
    (hfree : pexists files (adjCandidate src root_dir out_dir (extNorm target_ext)) = false) :
    derive_output_path files src root_dir out_dir target_ext
      = adjCandidate src root_dir out_dir (extNorm target_ext) := by
  obtain ⟨h, heq⟩ := derive_eq_trial files src root_dir out_dir target_ext
  have hz : Nat.find h = 0 := (Nat.find_eq_zero h).mpr hfree
  rw [heq, hz]
  rfl

theorem partsLead_append (a b : List (List Char)) : partsLead a (a ++ b) = true := by
  induction a with
  | nil => rfl
  | cons x xs ih =>
    unfold partsLead
    simp [ih]

theorem relative_to_join (od x : PyPath) (hx : x.absolute = false) :
    relative_to (joinPath od x) od = some ⟨false, x.parts⟩ := by
  unfold joinPath
  rw [if_neg (by rw [hx]; exact Bool.false_ne_true)]
  unfold relative_to
  rw [if_pos ⟨rfl, partsLead_append od.parts x.parts⟩]
  simp [List.drop_left]

theorem relative_to_elim {src rd rel : PyPath} (h : relative_to src rd = some rel) :
    rel = ⟨false, src.parts.drop rd.parts.length⟩
      ∧ src.absolute = rd.absolute ∧ partsLead rd.parts src.parts = true := by
  unfold relative_to at h
  by_cases hc : src.absolute = rd.absolute ∧ partsLead rd.parts src.parts = true
  · rw [if_pos hc] at h
    injection h with h1
    exact ⟨h1.symm, hc⟩
  · rw [if_neg hc] at h
    exact Option.noConfusion h

/-- A well-formed simple extension: a dot followed by a nonempty run of
non-dot characters (the shape of the extensions the program uses, `.png`
and `.tiff`). -/
def SimpleExt (e : List Char) : Prop :=
  ∃ r, e = '.' :: r ∧ r ≠ [] ∧ '.' ∉ r


theorem nameSuffix_shape (p : PyPath) :
    nameSuffix p = [] ∨ ∃ t, nameSuffix p = '.' :: t :=
  splitExt_suffix_shape (pathName p)

theorem stem_suffix_of_pathName {p : PyPath} {st sf : List Char}
    (hname : pathName p = st ++ sf) (hsplit : splitExt (st ++ sf) = (st, sf)) :
    nameStem p = st ∧ nameSuffix p = sf := by
  unfold nameStem nameSuffix
  rw [hname, hsplit]
  exact ⟨rfl, rfl⟩

theorem trial_inplace_ne_src (src : PyPath) (rt : Option PyPath) (r : List Char)
    (hrne : r ≠ []) (hrdot : '.' ∉ r) (k : Nat) :
    trialPath (adjCandidate src rt none ('.' :: r)) k ≠ src := by
  have hcandeq : deriveCandidate src rt none ('.' :: r)
      = with_name src (nameStem src ++ '.' :: r) := rfl
  have hcandname : pathName (deriveCandidate src rt none ('.' :: r))
      = nameStem src ++ '.' :: r := by
    rw [hcandeq]
    exact pathName_with_name _ _
  have hn : nameStem src ++ nameSuffix src = pathName src := stem_append_suffix src
  by_cases hcs : deriveCandidate src rt none ('.' :: r) = src
  · -- the candidate equals the source, so the "_ocr" token is inserted
    have hadj : adjCandidate src rt none ('.' :: r)
        = with_name (deriveCandidate src rt none ('.' :: r))
            (nameStem (deriveCandidate src rt none ('.' :: r)) ++ "_ocr".data
              ++ nameSuffix (deriveCandidate src rt none ('.' :: r))) := by
      simp only [adjCandidate]
      rw [if_pos hcs]
    have hnsrc : pathName src = nameStem src ++ '.' :: r := by
      have h1 := hcandname
      rw [hcs] at h1
      exact h1
    have hsf : nameSuffix src = '.' :: r := by
      have h2 : nameStem src ++ nameSuffix src = nameStem src ++ '.' :: r := by
        rw [hn, hnsrc]
      exact List.append_cancel_left h2
    have hstne : nameStem src ≠ [] := by
      intro h0
      have hdeg := @splitExt_stem_nil (pathName src) h0
      have h3 : nameSuffix src = [] := hdeg.2
      rw [hsf] at h3
      exact List.noConfusion h3
    have hsplitc : splitExt (nameStem src ++ '.' :: r) = (nameStem src, '.' :: r) :=
      splitExt_stem_ext hstne hrne hrdot
    obtain ⟨hstemc, hsufc⟩ := stem_suffix_of_pathName hcandname hsplitc
    have hadjname : pathName (adjCandidate src rt none ('.' :: r))
        = (nameStem src ++ "_ocr".data) ++ '.' :: r := by
      rw [hadj, pathName_with_name, hstemc, hsufc]
    have hstocr : nameStem src ++ "_ocr".data ≠ [] := by
      intro h0
      have h4 := congrArg List.length h0
      simp at h4
    have hsplita : splitExt ((nameStem src ++ "_ocr".data) ++ '.' :: r)
        = (nameStem src ++ "_ocr".data, '.' :: r) :=
      splitExt_stem_ext hstocr hrne hrdot
    obtain ⟨hstema, hsufa⟩ := stem_suffix_of_pathName hadjname hsplita
    cases k with
    | zero =>
      intro h0
      have hps := hadjname
      rw [show trialPath (adjCandidate src rt none ('.' :: r)) 0
            = adjCandidate src rt none ('.' :: r) from rfl] at h0
      rw [h0, hnsrc, List.append_assoc] at hps
      have hc2 := List.append_cancel_left hps
      have h5 := congrArg List.length hc2
      simp at h5
    | succ k =>
      intro h0
      have hparts : src.parts = (adjCandidate src rt none ('.' :: r)).parts.dropLast
          ++ [nameStem (adjCandidate src rt none ('.' :: r))
              ++ ('_' :: natDigits (k + 1))
              ++ nameSuffix (adjCandidate src rt none ('.' :: r))] := by
        have h1 := congrArg PyPath.parts h0
        simpa [trialPath, with_name] using h1.symm
      have hname := pathName_parts_concat hparts
      rw [hstema, hsufa, hnsrc] at hname
      have hc2 := List.append_cancel_right hname
      have h5 := congrArg List.length hc2
      simp at h5
  · -- the candidate differs from the source, so it is used unchanged
    have hadj : adjCandidate src rt none ('.' :: r)
        = deriveCandidate src rt none ('.' :: r) := by
      simp only [adjCandidate]
      rw [if_neg hcs]
    by_cases hst : nameStem src = []
    · -- degenerate source: empty name
      have hdeg := @splitExt_stem_nil (pathName src) hst
      cases k with
      | zero =>
        intro h0
        rw [show trialPath (adjCandidate src rt none ('.' :: r)) 0
              = adjCandidate src rt none ('.' :: r) from rfl, hadj] at h0
        exact hcs h0
      | succ k =>
        intro h0
        have hparts : src.parts = (adjCandidate src rt none ('.' :: r)).parts.dropLast
            ++ [nameStem (adjCandidate src rt none ('.' :: r))
                ++ ('_' :: natDigits (k + 1))
                ++ nameSuffix (adjCandidate src rt none ('.' :: r))] := by
          have h1 := congrArg PyPath.parts h0
          simpa [trialPath, with_name] using h1.symm
        have hname := pathName_parts_concat hparts
        rw [hdeg.1] at hname
        have h5 := congrArg List.length hname
        simp at h5
        omega
    · -- ordinary source: nonempty stem
      have hsplitc : splitExt (nameStem src ++ '.' :: r) = (nameStem src, '.' :: r) :=
        splitExt_stem_ext hst hrne hrdot
      obtain ⟨hstemc, hsufc⟩ := stem_suffix_of_pathName hcandname hsplitc
      cases k with
      | zero =>
        intro h0
        rw [show trialPath (adjCandidate src rt none ('.' :: r)) 0
              = adjCandidate src rt none ('.' :: r) from rfl, hadj] at h0
        exact hcs h0
      | succ k =>
        intro h0
        have hparts : src.parts = (adjCandidate src rt none ('.' :: r)).parts.dropLast
            ++ [nameStem (adjCandidate src rt none ('.' :: r))
                ++ ('_' :: natDigits (k + 1))
                ++ nameSuffix (adjCandidate src rt none ('.' :: r))] := by
          have h1 := congrArg PyPath.parts h0
          simpa [trialPath, with_name] using h1.symm
        have hname := pathName_parts_concat hparts
        rw [hadj, hstemc, hsufc, ← hn, List.append_assoc] at hname
        have hsf2 := List.append_cancel_left hname
        rcases nameSuffix_shape src with hshape | ⟨t, hshape⟩
        · rw [hshape] at hsf2
          have h5 := congrArg List.length hsf2
          simp at h5
        · rw [hshape] at hsf2
          rw [show ('_' :: natDigits (k + 1)) ++ '.' :: r
                = '_' :: (natDigits (k + 1) ++ '.' :: r) from rfl] at hsf2
          injection hsf2 with hh _
          exact absurd hh (by decide)

theorem derive_inplace_ne_src (files : List PyPath) (src : PyPath)
    (rt : Option PyPath) (target_ext : List Char) (hs : SimpleExt (extNorm target_ext)) :
    derive_output_path files src rt none target_ext ≠ src := by
  obtain ⟨r, hr, hrne, hrdot⟩ := hs
  obtain ⟨h, heq⟩ := derive_eq_trial files src rt none target_ext
  rw [heq]
  generalize Nat.find h = k
  rw [hr]
  exact trial_inplace_ne_src src rt r hrne hrdot k

theorem trialPath_dropLast (c : PyPath) (k : Nat) :
    (trialPath c k).parts.dropLast = c.parts.dropLast := by
  cases k with
  | zero => rfl
  | succ k => exact dropLast_with_name _ _

theorem trialPath_absolute (c : PyPath) (k : Nat) :
    (trialPath c k).absolute = c.absolute := by
  cases k with
  | zero => rfl
  | succ k => rfl

theorem adjCandidate_eq (src : PyPath) (rt od : Option PyPath) (ext : List Char) :
    adjCandidate src rt od ext
      = if deriveCandidate src rt od ext = src then
          with_name (deriveCandidate src rt od ext)
            (nameStem (deriveCandidate src rt od ext) ++ "_ocr".data
              ++ nameSuffix (deriveCandidate src rt od ext))
        else deriveCandidate src rt od ext := rfl

theorem adj_inplace_dropLast (src : PyPath) (rt : Option PyPath) (ext : List Char) :
    (adjCandidate src rt none ext).parts.dropLast = src.parts.dropLast := by
  rw [adjCandidate_eq]
  by_cases h : deriveCandidate src rt none ext = src
  · rw [if_pos h, dropLast_with_name]
    rw [show deriveCandidate src rt none ext = with_name src (nameStem src ++ ext) from rfl]
    exact dropLast_with_name _ _
  · rw [if_neg h]
    rw [show deriveCandidate src rt none ext = with_name src (nameStem src ++ ext) from rfl]
    exact dropLast_with_name _ _

theorem adj_inplace_absolute (src : PyPath) (rt : Option PyPath) (ext : List Char) :
    (adjCandidate src rt none ext).absolute = src.absolute := by
  rw [adjCandidate_eq]
  by_cases h : deriveCandidate src rt none ext = src
  · rw [if_pos h]
    rfl
  · rw [if_neg h]
    rfl

theorem derive_inplace_parent (files : List PyPath) (src : PyPath)
    (rt : Option PyPath) (target_ext : List Char) :
    (derive_output_path files src rt none target_ext).parts.dropLast = src.parts.dropLast
      ∧ (derive_output_path files src rt none target_ext).absolute = src.absolute := by
  obtain ⟨h, heq⟩ := derive_eq_trial files src rt none target_ext
  rw [heq]
  constructor
  · rw [trialPath_dropLast]
    exact adj_inplace_dropLast src rt (extNorm target_ext)
  · rw [trialPath_absolute]
    exact adj_inplace_absolute src rt (extNorm target_ext)

/-! ### Conversion -/

theorem exif_match_mode (im1 : PILImage) :
    (match exif_transpose im1 with | .ok t => t | .error _ => im1).mode = im1.mode := by
  unfold exif_transpose
  cases h : im1.exifMalformed with
  | false => simp
  | true => simp

theorem exif_match_oriented (im1 : PILImage) :
    (match exif_transpose im1 with | .ok t => t | .error _ => im1).oriented
      = (if im1.exifMalformed then im1.oriented else true) := by
  unfold exif_transpose
  cases h : im1.exifMalformed with
  | false => simp
  | true => simp

theorem convert_success (w : World) (src : PyPath) (fmt : String) (dpi : Nat)
    (rt od : Option PyPath) (im : PILImage) (h1 : is_ocr_friendly src = false)
    (h2 : lookupPath w.content src = some (some im)) :
    ∃ p w' sv, convert_to_ocr_friendly w src fmt dpi rt od
        = .ok (p, true, w', [FsOp.read src, FsOp.mkdirParent p, FsOp.write p])
      ∧ lookupPath w'.saved p = some sv
      ∧ sv.mode = (if im.mode = "P" ∨ im.mode = "CMYK" then "RGB" else im.mode)
      ∧ sv.oriented = (if im.exifMalformed then im.oriented else true)
      ∧ sv.dpi = (dpi, dpi)
      ∧ w'.files = p :: w.files
      ∧ w'.saved = (p, sv) :: w.saved := by
  have hopen : openImage w src = Except.ok im := by
    unfold openImage
    rw [h2]
  unfold convert_to_ocr_friendly
  rw [if_neg (by simp [h1])]
  rw [hopen]
  refine ⟨_, _, _, rfl, ?_, ?_, ?_, rfl, rfl, rfl⟩
  · simp [lookupPath]
  · show (match exif_transpose _ with | .ok t => t | .error _ => _).mode = _
    rw [exif_match_mode]
    by_cases hm : im.mode = "P" ∨ im.mode = "CMYK"
    · rw [if_pos hm, if_pos hm]
    · rw [if_neg hm, if_neg hm]
  · show (match exif_transpose _ with | .ok t => t | .error _ => _).oriented = _
    rw [exif_match_oriented]
    by_cases hm : im.mode = "P" ∨ im.mode = "CMYK"
    · rw [if_pos hm]
    · rw [if_neg hm]

/-! ### CSV manifest loading -/

theorem loadCsvRows_plain (resolve : List Char → PyPath) (isValidDir : PyPath → Bool) :
    ∀ (raws : List (List Char)) (st : CsvState),
      st.header_seen = true →
      st.path_column_index = some 0 →
      (∀ x ∈ raws, stripStr x = x ∧ x ≠ [] ∧ x.head? ≠ some '#') →
      loadCsvRows resolve isValidDir (raws.map (fun x => [x])) st
        = { st with
            directories := st.directories
              ++ (raws.filter (fun x => isValidDir (resolve x))).map resolve,
            warnings := st.warnings ++ raws.filter (fun x => !(isValidDir (resolve x))) } := by
  intro raws
  induction raws with
  | nil =>
    intro st h1 h2 h3
    simp [loadCsvRows]
  | cons x xs ih =>
    intro st h1 h2 h3
    obtain ⟨hx1, hx2, hx3⟩ := h3 x (List.mem_cons_self x xs)
    have hxs : ∀ y ∈ xs, stripStr y = y ∧ y ≠ [] ∧ y.head? ≠ some '#' :=
      fun y hy => h3 y (List.mem_cons_of_mem x hy)
    cases hv : isValidDir (resolve x) with
    | false =>
      have hrec := ih { header_seen := true, path_column_index := some 0,
                        directories := st.directories, warnings := st.warnings ++ [x] }
        rfl rfl hxs
      simp [loadCsvRows, List.headD, hx1, h1, h2, hx2, hx3, hv, List.filter_cons, hrec]
    | true =>
      have hrec := ih { header_seen := true, path_column_index := some 0,
                        directories := st.directories ++ [resolve x], warnings := st.warnings }
        rfl rfl hxs
      simp [loadCsvRows, List.headD, hx1, h1, h2, hx2, hx3, hv, List.filter_cons, hrec]

theorem loadCsvRows_first (resolve : List Char → PyPath) (isValidDir : PyPath → Bool)
    (x : List Char) (xs : List (List Char))
    (hx1 : stripStr x = x) (hx2 : x ≠ []) (hx3 : x.head? ≠ some '#')
    (hx4 : lowerStr x ≠ "path".data)
    (hxs : ∀ y ∈ xs, stripStr y = y ∧ y ≠ [] ∧ y.head? ≠ some '#') :
    loadCsvRows resolve isValidDir ((x :: xs).map (fun y => [y])) ⟨false, none, [], []⟩
      = { header_seen := true, path_column_index := some 0,
          directories := (List.filter (fun y => isValidDir (resolve y)) (x :: xs)).map resolve,
          warnings := List.filter (fun y => !isValidDir (resolve y)) (x :: xs) } := by
  have hx4' : ¬("path".data = lowerStr x) := fun h => hx4 h.symm
  cases hv : isValidDir (resolve x) with
  | false =>
    have hrec := loadCsvRows_plain resolve isValidDir xs
      { header_seen := true, path_column_index := some 0,
        directories := [], warnings := [x] } rfl rfl hxs
    simp [loadCsvRows, List.headD, hx1, hx2, hx3, hx4', hv, List.filter_cons, hrec]
  | true =>
    have hrec := loadCsvRows_plain resolve isValidDir xs
      { header_seen := true, path_column_index := some 0,
        directories := [resolve x], warnings := [] } rfl rfl hxs
    simp [loadCsvRows, List.headD, hx1, hx2, hx3, hx4', hv, List.filter_cons, hrec]

theorem load_directories_from_csv_plain (resolve : List Char → PyPath)
    (isValidDir : PyPath → Bool) (raws : List (List Char))
    (hplain : ∀ x ∈ raws, stripStr x = x ∧ x ≠ [] ∧ x.head? ≠ some '#'
      ∧ lowerStr x ≠ "path".data) :
    load_directories_from_csv resolve isValidDir (raws.map (fun x => [x]))
      = if (raws.filter (fun x => isValidDir (resolve x))) = [] then
          Except.error "No valid directories found in CSV".data
        else Except.ok ((raws.filter (fun x => isValidDir (resolve x))).map resolve,
            raws.filter (fun x => !(isValidDir (resolve x)))) := by
  cases raws with
  | nil => rfl
  | cons x xs =>
    obtain ⟨hx1, hx2, hx3, hx4⟩ := hplain x (List.mem_cons_self x xs)
    have hxs : ∀ y ∈ xs, stripStr y = y ∧ y ≠ [] ∧ y.head? ≠ some '#' := by
      intro y hy
      obtain ⟨a, b, c, _⟩ := hplain y (List.mem_cons_of_mem x hy)
      exact ⟨a, b, c⟩
    unfold load_directories_from_csv
    rw [loadCsvRows_first resolve isValidDir x xs hx1 hx2 hx3 hx4 hxs]
    by_cases hnil : List.filter (fun y => isValidDir (resolve y)) (x :: xs) = []
    · rw [if_pos (by simp [hnil]), if_pos hnil]
    · rw [if_neg (by simp [hnil]), if_neg hnil]

/-! ### Claim theorems -/

theorem eq_of_absolute_false {x : PyPath} (h : x.absolute = false) :
    (⟨false, x.parts⟩ : PyPath) = x := by
  cases x with
  | mk a p =>
    simp only at h
    rw [h]

/-- C1, counterexample to the claim as stated: for the relative source
`data/sub/a.jpg` under root `data` with output directory `/out`, the source
is under the root (`relative_to` succeeds with `sub/a.jpg`), yet
`derive_output_path` returns `/out/a.png` instead of the mirrored
`/out/sub/a.png`, because the code additionally requires the source to be an
absolute path before mirroring. -/
theorem C1_mirror_counterexample :
    relative_to ⟨false, ["data".data, "sub".data, "a.jpg".data]⟩ ⟨false, ["data".data]⟩
        = some ⟨false, ["sub".data, "a.jpg".data]⟩
      ∧ derive_output_path [] ⟨false, ["data".data, "sub".data, "a.jpg".data]⟩
          (some ⟨false, ["data".data]⟩) (some ⟨true, ["out".data]⟩) ".png".data
        = ⟨true, ["out".data, "a.png".data]⟩
      ∧ derive_output_path [] ⟨false, ["data".data, "sub".data, "a.jpg".data]⟩
          (some ⟨false, ["data".data]⟩) (some ⟨true, ["out".data]⟩) ".png".data
        ≠ joinPath ⟨true, ["out".data]⟩
            (with_suffix ⟨false, ["sub".data, "a.jpg".data]⟩ ".png".data) := by
  refine ⟨?_, ?_, ?_⟩ <;> decide

/-- C1 (amended): when an output directory and a root directory are both set
and the source is an ABSOLUTE path under the root, `derive_output_path`
returns the output directory joined with the source's path relative to the
root with the extension replaced (assuming no pre-existing collision and the
mirrored candidate differing from the source), and the destination's path
relative to the output directory is exactly that relative path; the relative
computation falls back to just the source's file name when the source is not
absolute, when it is not under the root, or when the root is unset. -/
theorem C1_mirrored_output_amended (files : List PyPath) (src rd od : PyPath)
    (target_ext : List Char) :
    (∀ rel : PyPath, src.absolute = true →
      relative_to src rd = some rel →
      pexists files (mirrorCandidate src (some rd) od (extNorm target_ext)) = false →
      mirrorCandidate src (some rd) od (extNorm target_ext) ≠ src →
      derive_output_path files src (some rd) (some od) target_ext
          = joinPath od (with_suffix rel (extNorm target_ext))
        ∧ relative_to (derive_output_path files src (some rd) (some od) target_ext) od
          = some (with_suffix rel (extNorm target_ext)))
    ∧ (src.absolute = false → mirrorRel src (some rd) = nameOnly src)
    ∧ (relative_to src rd = none → mirrorRel src (some rd) = nameOnly src)
    ∧ mirrorRel src none = nameOnly src := by
  refine ⟨?_, ?_, ?_, rfl⟩
  · intro rel habs hrel hfree hne
    have hmr : mirrorRel src (some rd) = rel := by
      show (if src.absolute = true then (relative_to src rd).getD (nameOnly src)
            else nameOnly src) = rel
      rw [if_pos habs, hrel]
      rfl
    have hcand : deriveCandidate src (some rd) (some od) (extNorm target_ext)
        = joinPath od (with_suffix rel (extNorm target_ext)) := by
      show mirrorCandidate src (some rd) od (extNorm target_ext) = _
      unfold mirrorCandidate
      rw [hmr]
    have hne' : joinPath od (with_suffix rel (extNorm target_ext)) ≠ src := by
      intro h0
      apply hne
      show deriveCandidate src (some rd) (some od) (extNorm target_ext) = src
      rw [hcand]
      exact h0
    have hadj : adjCandidate src (some rd) (some od) (extNorm target_ext)
        = joinPath od (with_suffix rel (extNorm target_ext)) := by
      rw [adjCandidate_eq, hcand, if_neg hne']
    have hfree' : pexists files (adjCandidate src (some rd) (some od) (extNorm target_ext))
        = false := by
      rw [hadj, ← hcand]
      exact hfree
    have hder := derive_no_collision files src (some rd) (some od) target_ext hfree'
    constructor
    · rw [hder, hadj]
    · rw [hder, hadj]
      have hrelf : rel.absolute = false := by
        obtain ⟨h1, _, _⟩ := relative_to_elim hrel
        rw [h1]
      have hwsf : (with_suffix rel (extNorm target_ext)).absolute = false := by
        show (with_name rel _).absolute = false
        rw [absolute_with_name]
        exact hrelf
      rw [relative_to_join od _ hwsf]
      rw [eq_of_absolute_false hwsf]
  · intro habs
    show (if src.absolute = true then (relative_to src rd).getD (nameOnly src)
          else nameOnly src) = nameOnly src
    rw [if_neg (by rw [habs]; exact Bool.false_ne_true)]
  · intro hnone
    show (if src.absolute = true then (relative_to src rd).getD (nameOnly src)
          else nameOnly src) = nameOnly src
    by_cases habs : src.absolute = true
    · rw [if_pos habs, hnone]
      rfl
    · rw [if_neg habs]

/-- C1 witness: the spec's round-trip scenario — source `/data/photo.jpg`
under root `/data`, output directory `/out`, target `.png`, empty
filesystem: the resolver yields `/out/photo.png`, which is `photo.png`
relative to the output directory. -/
theorem C1_mirrored_output_amended_witness :
    derive_output_path [] ⟨true, ["data".data, "photo.jpg".data]⟩
        (some ⟨true, ["data".data]⟩) (some ⟨true, ["out".data]⟩) ".png".data
      = joinPath ⟨true, ["out".data]⟩
          (with_suffix ⟨false, ["photo.jpg".data]⟩ (extNorm ".png".data))
    ∧ relative_to (derive_output_path [] ⟨true, ["data".data, "photo.jpg".data]⟩
          (some ⟨true, ["data".data]⟩) (some ⟨true, ["out".data]⟩) ".png".data)
        ⟨true, ["out".data]⟩
      = some (with_suffix ⟨false, ["photo.jpg".data]⟩ (extNorm ".png".data)) := by
  have h := (C1_mirrored_output_amended [] ⟨true, ["data".data, "photo.jpg".data]⟩
    ⟨true, ["data".data]⟩ ⟨true, ["out".data]⟩ ".png".data).1
    ⟨false, ["photo.jpg".data]⟩ rfl (by decide) (by decide) (by decide)
  exact h

/-- C2: collision avoidance of the path resolver.  For every filesystem
state and every input, the returned path does not exist; it is exactly the
trial path at the LEAST index whose path does not exist (trial 0 being the
candidate itself, trial k the candidate with `_k` appended to the stem, so
successive collisions increment the disambiguator by exactly one starting at
1); and resolving again after the first result has come into existence never
returns the same path. -/
theorem C2_collision_avoidance (files : List PyPath) (src : PyPath)
    (root_dir out_dir : Option PyPath) (target_ext : List Char) :
    pexists files (derive_output_path files src root_dir out_dir target_ext) = false
    ∧ (∃ h : ∃ k, pexists files
          (trialPath (adjCandidate src root_dir out_dir (extNorm target_ext)) k) = false,
        derive_output_path files src root_dir out_dir target_ext
          = trialPath (adjCandidate src root_dir out_dir (extNorm target_ext)) (Nat.find h))
    ∧ derive_output_path
        ((derive_output_path files src root_dir out_dir target_ext) :: files)
        src root_dir out_dir target_ext
      ≠ derive_output_path files src root_dir out_dir target_ext := by
  refine ⟨derive_not_exists files src root_dir out_dir target_ext,
          derive_eq_trial files src root_dir out_dir target_ext, ?_⟩
  intro h0
  have hne := derive_not_exists
    (derive_output_path files src root_dir out_dir target_ext :: files)
    src root_dir out_dir target_ext
  rw [h0] at hne
  simp [pexists] at hne

/-- C4: normalizer no-op law.  When the classifier reports the source
already OCR-friendly, the conversion returns the source path itself with
`changed = false`, leaves the filesystem untouched, and performs no
filesystem operation at all. -/
theorem C4_normalizer_noop (w : World) (src : PyPath) (output_format : String)
    (dpi : Nat) (root_dir output_dir : Option PyPath)
    (h : is_ocr_friendly src = true) :
    convert_to_ocr_friendly w src output_format dpi root_dir output_dir
      = .ok (src, false, w, []) := by
  unfold convert_to_ocr_friendly
  rw [if_pos h]

/-- C4 witness: an already-OCR-friendly `/x/a.png` is returned unchanged
with no filesystem operation. -/
theorem C4_normalizer_noop_witness :
    convert_to_ocr_friendly ⟨[], [], []⟩ ⟨true, ["x".data, "a.png".data]⟩ "PNG" 300 none none
      = .ok (⟨true, ["x".data, "a.png".data]⟩, false, ⟨[], [], []⟩, []) :=
  C4_normalizer_noop ⟨[], [], []⟩ ⟨true, ["x".data, "a.png".data]⟩ "PNG" 300 none none
    (by decide)

/-- C3 (the claim describes the intended, spec-mandated behavior; the code
does NOT implement it): the per-candidate loop of `main` has no try/except
around `convert_to_ocr_friendly`, so with a corrupt `/data/a.jpg` followed by
a readable `/data/b.jpg` the whole batch aborts with the error of the first
file and the second candidate is never processed — while the same batch
without the corrupt file completes.  This evaluates the embedded orchestrator
at the failing input. -/
theorem C3_error_propagates :
    processFiles "PNG" 300 (some ⟨true, ["data".data]⟩) (some ⟨true, ["out".data]⟩) false
        [⟨true, ["data".data, "a.jpg".data]⟩, ⟨true, ["data".data, "b.jpg".data]⟩]
        ⟨[⟨true, ["data".data, "a.jpg".data]⟩, ⟨true, ["data".data, "b.jpg".data]⟩],
         [(⟨true, ["data".data, "a.jpg".data]⟩, none),
          (⟨true, ["data".data, "b.jpg".data]⟩, some ⟨"RGB", false, false⟩)], []⟩
        0 0 0
      = Except.error (ConvError.unreadable ⟨true, ["data".data, "a.jpg".data]⟩)
    ∧ isOkE (processFiles "PNG" 300 (some ⟨true, ["data".data]⟩) (some ⟨true, ["out".data]⟩)
        false
        [⟨true, ["data".data, "b.jpg".data]⟩]
        ⟨[⟨true, ["data".data, "a.jpg".data]⟩, ⟨true, ["data".data, "b.jpg".data]⟩],
         [(⟨true, ["data".data, "a.jpg".data]⟩, none),
          (⟨true, ["data".data, "b.jpg".data]⟩, some ⟨"RGB", false, false⟩)], []⟩
        0 0 0) = true := by
  exact ⟨rfl, rfl⟩

/-- C5: the format classifier is a pure function of the path's suffix.  It
returns true exactly when the lower-cased suffix belongs to
{.png, .tif, .tiff, .pbm, .pgm, .ppm}; any path with the same suffix is
classified identically; and jpg, bmp, webp and missing-suffix paths are
rejected. -/
theorem C5_classifier_exact (p : PyPath) :
    (is_ocr_friendly p = true ↔
      (nameSuffix p).map Char.toLower
        ∈ [".png".data, ".tif".data, ".tiff".data, ".pbm".data, ".pgm".data, ".ppm".data])
    ∧ (∀ q : PyPath, nameSuffix q = nameSuffix p → is_ocr_friendly q = is_ocr_friendly p)
    ∧ (nameSuffix p = ".jpg".data ∨ nameSuffix p = ".bmp".data
        ∨ nameSuffix p = ".webp".data ∨ nameSuffix p = [] → is_ocr_friendly p = false) := by
  refine ⟨?_, ?_, ?_⟩
  · unfold is_ocr_friendly OCR_FRIENDLY_EXTENSIONS
    simp
  · intro q hq
    unfold is_ocr_friendly
    rw [hq]
  · intro hcase
    unfold is_ocr_friendly
    rcases hcase with h | h | h | h <;> rw [h] <;> decide

/-- C5 witness: `A.PNG` (mixed case) is accepted, `a.jpg` is rejected. -/
theorem C5_classifier_exact_witness :
    is_ocr_friendly ⟨true, ["x".data, "A.PNG".data]⟩ = true
    ∧ is_ocr_friendly ⟨true, ["x".data, "a.jpg".data]⟩ = false := by
  constructor
  · exact (C5_classifier_exact ⟨true, ["x".data, "A.PNG".data]⟩).1.mpr (by decide)
  · exact (C5_classifier_exact ⟨true, ["x".data, "a.jpg".data]⟩).2.2 (by decide)

/-- C6: in-place resolution and source protection.  With no output directory
the candidate is the source with its extension replaced (same parent
directory, same absoluteness); when that candidate equals the source exactly
the fixed token `_ocr` is inserted into the stem; with no pre-existing
collision the result is exactly the (adjusted) candidate; and for any
filesystem state the returned destination never equals the source path and
stays in the source's parent directory.  The extension is assumed to
normalize to a dot followed by a nonempty dot-free run, the shape of the
program's `.png` / `.tiff`. -/
theorem C6_in_place (files : List PyPath) (src : PyPath) (root_dir : Option PyPath)
    (target_ext : List Char) (hs : SimpleExt (extNorm target_ext)) :
    deriveCandidate src root_dir none (extNorm target_ext)
        = with_suffix src (extNorm target_ext)
    ∧ (with_suffix src (extNorm target_ext)).parts.dropLast = src.parts.dropLast
    ∧ (with_suffix src (extNorm target_ext)).absolute = src.absolute
    ∧ (with_suffix src (extNorm target_ext) = src →
        adjCandidate src root_dir none (extNorm target_ext)
          = with_name (with_suffix src (extNorm target_ext))
              (nameStem (with_suffix src (extNorm target_ext)) ++ "_ocr".data
                ++ nameSuffix (with_suffix src (extNorm target_ext))))
    ∧ (pexists files (adjCandidate src root_dir none (extNorm target_ext)) = false →
        derive_output_path files src root_dir none target_ext
          = adjCandidate src root_dir none (extNorm target_ext))
    ∧ derive_output_path files src root_dir none target_ext ≠ src
    ∧ (derive_output_path files src root_dir none target_ext).parts.dropLast
        = src.parts.dropLast
    ∧ (derive_output_path files src root_dir none target_ext).absolute = src.absolute := by
  refine ⟨rfl, dropLast_with_name src _, rfl, ?_, ?_, ?_, ?_, ?_⟩
  · intro he
    rw [adjCandidate_eq]
    rw [if_pos (show deriveCandidate src root_dir none (extNorm target_ext) = src from he)]
    rfl
  · intro hfree
    exact derive_no_collision files src root_dir none target_ext hfree
  · exact derive_inplace_ne_src files src root_dir target_ext hs
  · exact (derive_inplace_parent files src root_dir target_ext).1
  · exact (derive_inplace_parent files src root_dir target_ext).2

/-- C6 witness: converting `/d/a.jpg` in place with target `.png` on an
empty filesystem yields `/d/a.png`, which differs from the source; and for
`/d/a.png` (already carrying the target extension) the candidate equals the
source and the result is `/d/a_ocr.png`, still different from the source. -/
theorem C6_in_place_witness :
    derive_output_path [] ⟨true, ["d".data, "a.jpg".data]⟩ none none ".png".data
        ≠ ⟨true, ["d".data, "a.jpg".data]⟩
    ∧ derive_output_path [] ⟨true, ["d".data, "a.jpg".data]⟩ none none ".png".data
        = with_suffix ⟨true, ["d".data, "a.jpg".data]⟩ ".png".data
    ∧ derive_output_path [] ⟨true, ["d".data, "a.png".data]⟩ none none ".png".data
        ≠ ⟨true, ["d".data, "a.png".data]⟩ := by
  have h1 := C6_in_place [] ⟨true, ["d".data, "a.jpg".data]⟩ none ".png".data
    ⟨"png".data, rfl, by decide, by decide⟩
  have h2 := C6_in_place [] ⟨true, ["d".data, "a.png".data]⟩ none ".png".data
    ⟨"png".data, rfl, by decide, by decide⟩
  refine ⟨h1.2.2.2.2.2.1, ?_, h2.2.2.2.2.2.1⟩
  have h5 := h1.2.2.2.2.1 (by decide)
  rw [h5]
  decide

/-- C7: color-mode normalization during conversion.  For a decodable
non-OCR-friendly source, the conversion writes an image whose mode is RGB
when the decoded mode was palette-indexed (P) or CMYK, and whose mode is
unchanged when the decoded mode was already RGB, RGBA, or grayscale (L). -/
theorem C7_color_mode (w : World) (src : PyPath) (output_format : String) (dpi : Nat)
    (root_dir output_dir : Option PyPath) (im : PILImage)
    (h1 : is_ocr_friendly src = false)
    (h2 : lookupPath w.content src = some (some im)) :
    ∃ p w' sv, convert_to_ocr_friendly w src output_format dpi root_dir output_dir
        = .ok (p, true, w', [FsOp.read src, FsOp.mkdirParent p, FsOp.write p])
      ∧ lookupPath w'.saved p = some sv
      ∧ ((im.mode = "P" ∨ im.mode = "CMYK") → sv.mode = "RGB")
      ∧ (im.mode = "RGB" ∨ im.mode = "RGBA" ∨ im.mode = "L" → sv.mode = im.mode) := by
  obtain ⟨p, w', sv, hc, hl, hm, _, _, _, _⟩ :=
    convert_success w src output_format dpi root_dir output_dir im h1 h2
  refine ⟨p, w', sv, hc, hl, ?_, ?_⟩
  · intro hpm
    rw [hm, if_pos hpm]
  · intro hrm
    rw [hm, if_neg ?_]
    rintro (ha | ha) <;> rcases hrm with h | h | h <;> rw [h] at ha <;>
      exact absurd ha (by decide)

/-- C7 witness: a CMYK `/d/a.jpg` is saved as RGB, and an RGB source is
saved with mode RGB unchanged. -/
theorem C7_color_mode_witness :
    (∃ p w' sv, convert_to_ocr_friendly
        ⟨[⟨true, ["d".data, "a.jpg".data]⟩],
         [(⟨true, ["d".data, "a.jpg".data]⟩, some ⟨"CMYK", false, false⟩)], []⟩
        ⟨true, ["d".data, "a.jpg".data]⟩ "PNG" 300 none none
        = .ok (p, true, w',
            [FsOp.read ⟨true, ["d".data, "a.jpg".data]⟩, FsOp.mkdirParent p, FsOp.write p])
      ∧ lookupPath w'.saved p = some sv ∧ sv.mode = "RGB") := by
  obtain ⟨p, w', sv, hc, hl, hm, _⟩ := C7_color_mode
    ⟨[⟨true, ["d".data, "a.jpg".data]⟩],
     [(⟨true, ["d".data, "a.jpg".data]⟩, some ⟨"CMYK", false, false⟩)], []⟩
    ⟨true, ["d".data, "a.jpg".data]⟩ "PNG" 300 none none ⟨"CMYK", false, false⟩
    (by decide) (by decide)
  exact ⟨p, w', sv, hc, hl, hm (Or.inr rfl)⟩

/-- C8: orientation-correction error recovery.  For a decodable source whose
embedded orientation metadata is malformed, the conversion does not raise:
it still writes the image to the destination (the destination is added to
the filesystem and a saved record exists there), only without orientation
correction (the saved orientation state equals the decoded image's). -/
theorem C8_exif_recovery (w : World) (src : PyPath) (output_format : String) (dpi : Nat)
    (root_dir output_dir : Option PyPath) (im : PILImage)
    (h1 : is_ocr_friendly src = false)
    (h2 : lookupPath w.content src = some (some im))
    (h3 : im.exifMalformed = true) :
    ∃ p w' sv, convert_to_ocr_friendly w src output_format dpi root_dir output_dir
        = .ok (p, true, w', [FsOp.read src, FsOp.mkdirParent p, FsOp.write p])
      ∧ w'.files = p :: w.files
      ∧ lookupPath w'.saved p = some sv
      ∧ sv.oriented = im.oriented := by
  obtain ⟨p, w', sv, hc, hl, _, ho, _, hf, _⟩ :=
    convert_success w src output_format dpi root_dir output_dir im h1 h2
  refine ⟨p, w', sv, hc, hf, hl, ?_⟩
  rw [ho, if_pos h3]

/-- C8 witness: a source with a malformed orientation tag and unoriented
pixels is still written, with the saved image left unoriented. -/
theorem C8_exif_recovery_witness :
    (∃ p w' sv, convert_to_ocr_friendly
        ⟨[⟨true, ["d".data, "a.jpg".data]⟩],
         [(⟨true, ["d".data, "a.jpg".data]⟩, some ⟨"RGB", true, false⟩)], []⟩
        ⟨true, ["d".data, "a.jpg".data]⟩ "PNG" 300 none none
        = .ok (p, true, w',
            [FsOp.read ⟨true, ["d".data, "a.jpg".data]⟩, FsOp.mkdirParent p, FsOp.write p])
      ∧ w'.files = p :: [⟨true, ["d".data, "a.jpg".data]⟩]
      ∧ lookupPath w'.saved p = some sv ∧ sv.oriented = false) := by
  obtain ⟨p, w', sv, hc, hf, hl, ho⟩ := C8_exif_recovery
    ⟨[⟨true, ["d".data, "a.jpg".data]⟩],
     [(⟨true, ["d".data, "a.jpg".data]⟩, some ⟨"RGB", true, false⟩)], []⟩
    ⟨true, ["d".data, "a.jpg".data]⟩ "PNG" 300 none none ⟨"RGB", true, false⟩
    (by decide) (by decide) rfl
  exact ⟨p, w', sv, hc, hf, hl, ho⟩

/-- C9: manifest (CSV) root resolution.  For a plain manifest (each row a
single stripped nonempty cell, no comment rows, no header token), the
accepted roots are exactly the listed directories that exist and are
directories, each invalid entry produces exactly one warning and is dropped
while processing continues, and a manifest yielding zero valid directories
is a fatal error. -/
theorem C9_manifest_roots (resolve : List Char → PyPath) (isValidDir : PyPath → Bool)
    (raws : List (List Char))
    (hplain : ∀ x ∈ raws, stripStr x = x ∧ x ≠ [] ∧ x.head? ≠ some '#'
      ∧ lowerStr x ≠ "path".data) :
    ((raws.filter (fun x => isValidDir (resolve x))) ≠ [] →
      load_directories_from_csv resolve isValidDir (raws.map (fun x => [x]))
        = .ok ((raws.filter (fun x => isValidDir (resolve x))).map resolve,
               raws.filter (fun x => !(isValidDir (resolve x)))))
    ∧ ((raws.filter (fun x => isValidDir (resolve x))) = [] →
      load_directories_from_csv resolve isValidDir (raws.map (fun x => [x]))
        = .error "No valid directories found in CSV".data) := by
  have h := load_directories_from_csv_plain resolve isValidDir raws hplain
  constructor
  · intro hne
    rw [h, if_neg hne]
  · intro hnil
    rw [h, if_pos hnil]

/-- C9 witness: a manifest of three directories of which `/y` does not exist
resolves to exactly the two roots `/x` and `/z` with one warning for `/y`;
a manifest with no valid directory is a fatal error. -/
theorem C9_manifest_roots_witness :
    load_directories_from_csv (fun s => ⟨true, [s]⟩)
        (fun p => decide (p ≠ ⟨true, ["/y".data]⟩))
        [["/x".data], ["/y".data], ["/z".data]]
      = .ok ([⟨true, ["/x".data]⟩, ⟨true, ["/z".data]⟩], ["/y".data])
    ∧ load_directories_from_csv (fun s => ⟨true, [s]⟩) (fun _ => false) [["/q".data]]
      = .error "No valid directories found in CSV".data := by
  constructor
  · have h := (C9_manifest_roots (fun s => ⟨true, [s]⟩)
      (fun p => decide (p ≠ ⟨true, ["/y".data]⟩))
      ["/x".data, "/y".data, "/z".data] (by decide)).1 (by decide)
    exact h.trans (congrArg Except.ok (by decide))
  · have h := (C9_manifest_roots (fun s => ⟨true, [s]⟩) (fun _ => false)
      ["/q".data] (by decide)).2 (by decide)
    exact h

/-- C10: the CLI always supplies an output directory — the parsed
`--output-dir` is the supplied flag or the default `~/ocr_output`, and `main`
passes it to the normalizer as `some` output directory; with a present
output directory the path resolver's candidate is the mirrored one, the
in-place candidate arising only when the output directory argument is
absent, which `main` never produces. -/
theorem C10_cli_output_dir (resolve : List Char → PyPath) (homeStr : List Char)
    (flag : Option (List Char)) :
    (mainOutputDirArg resolve homeStr flag).isSome = true
    ∧ (flag = none →
        mainOutputDir resolve homeStr flag
          = resolve (homeStr ++ ('/' :: "ocr_output".data)))
    ∧ (∀ (src : PyPath) (rt : Option PyPath) (ext : List Char),
        deriveCandidate src rt (mainOutputDirArg resolve homeStr flag) ext
          = mirrorCandidate src rt (mainOutputDir resolve homeStr flag) ext)
    ∧ (∀ (src : PyPath) (rt : Option PyPath) (ext : List Char),
        deriveCandidate src rt none ext = inPlaceCandidate src ext)
    ∧ (∀ (output_format : String) (dpi : Nat) (rd : PyPath) (dry : Bool)
        (cands : List PyPath) (w : World),
        mainRunRoot resolve homeStr flag output_format dpi rd dry cands w
          = processFiles output_format dpi (some rd)
              (some (mainOutputDir resolve homeStr flag)) dry cands w 0 0 0) := by
  refine ⟨rfl, ?_, fun _ _ _ => rfl, fun _ _ _ => rfl, fun _ _ _ _ _ _ => rfl⟩
  intro hf
  rw [hf]
  rfl

/-- C2 witness: the spec's collision scenario — with `/out/photo.png`
already existing, resolving `/data/photo.jpg` yields `/out/photo_1.png`,
which does not exist. -/
theorem C2_collision_avoidance_witness :
    pexists [⟨true, ["out".data, "photo.png".data]⟩]
      (derive_output_path [⟨true, ["out".data, "photo.png".data]⟩]
        ⟨true, ["data".data, "photo.jpg".data]⟩ (some ⟨true, ["data".data]⟩)
        (some ⟨true, ["out".data]⟩) ".png".data) = false
    ∧ derive_output_path [⟨true, ["out".data, "photo.png".data]⟩]
        ⟨true, ["data".data, "photo.jpg".data]⟩ (some ⟨true, ["data".data]⟩)
        (some ⟨true, ["out".data]⟩) ".png".data
      = ⟨true, ["out".data, "photo_1.png".data]⟩ := by
  have h := C2_collision_avoidance [⟨true, ["out".data, "photo.png".data]⟩]
    ⟨true, ["data".data, "photo.jpg".data]⟩ (some ⟨true, ["data".data]⟩)
    (some ⟨true, ["out".data]⟩) ".png".data
  exact ⟨h.1, by decide⟩

/-- C10 witness: with no `--output-dir` flag the parsed output directory is
the resolved `~/ocr_output` and is passed as a present option. -/
theorem C10_cli_output_dir_witness :
    (mainOutputDirArg (fun s => ⟨true, [s]⟩) "/home/u".data none).isSome = true
    ∧ mainOutputDir (fun s => ⟨true, [s]⟩) "/home/u".data none
        = ⟨true, ["/home/u".data ++ ('/' :: "ocr_output".data)]⟩ := by
  have h := C10_cli_output_dir (fun s => ⟨true, [s]⟩) "/home/u".data none
  exact ⟨h.1, h.2.1 rfl⟩
